import Mathlib

/-!
# Verification of the Nuru Events data-normalization and referential-integrity pipeline

Shallow embedding of the Mongoose models of the repository:
`event.model.ts` (slug generation, date/time normalization, pre-save hook,
unique slug index) and `booking.model.ts` (email setters and validator,
referential-integrity pre-save hook).  JavaScript strings are modelled as
`List Char` over their ASCII fragment.
-/

set_option maxRecDepth 4000

deriving instance DecidableEq for Except

/-- JavaScript strings, modelled as lists of characters. -/
abbrev Str := List Char

/-- The `\s` character class of a JavaScript regular expression, and the
characters removed by `String.prototype.trim`, restricted to ASCII. -/
def isWS (c : Char) : Bool :=
  c == ' ' || c == '\t' || c == '\n' || c == '\r' || c == '\x0b' || c == '\x0c'

/-- The `\w` character class of a JavaScript regular expression:
`[A-Za-z0-9_]`. -/
def isWordChar (c : Char) : Bool :=
  c.isAlpha || c.isDigit || c == '_'

/-- A hyphen, the class `[-]`. -/
def isHyph (c : Char) : Bool := c == '-'

/-- `String.prototype.toLowerCase` on the ASCII fragment. -/
def lowerStr (l : Str) : Str := l.map Char.toLower

/-- `String.prototype.trim`: drop whitespace from both ends. -/
def trimStr (l : Str) : Str :=
  ((l.dropWhile isWS).reverse.dropWhile isWS).reverse

/-- `.replace(/[^\w\s-]/g, '')`: keep exactly the word characters,
whitespace and hyphens. -/
def stripNonWord (l : Str) : Str :=
  l.filter (fun c => isWordChar c || isWS c || isHyph c)

/-- Scanning engine for a global regex replace of one-or-more `p`-characters
by `'-'`: each maximal run of characters satisfying `p` is emitted as a
single `'-'`.  The flag records whether the scanner is currently inside such
a run. -/
def collapseAux (p : Char → Bool) : Bool → Str → Str
  | _, [] => []
  | inRun, c :: rest =>
    if p c then
      if inRun then collapseAux p true rest
      else '-' :: collapseAux p true rest
    else c :: collapseAux p false rest

/-- The whitespace step of `generateSlug`: replace each maximal whitespace
run by a single hyphen. -/
def collapseWS (l : Str) : Str := collapseAux isWS false l

/-- The hyphen step of `generateSlug`: replace each maximal hyphen run by a
single hyphen. -/
def collapseHyphens (l : Str) : Str := collapseAux isHyph false l

/-- `generateSlug` from `event.model.ts`: lowercase, trim, strip the
characters outside `[\w\s-]`, collapse whitespace runs to hyphens, collapse
hyphen runs. -/
def generateSlug (title : Str) : Str :=
  collapseHyphens (collapseWS (stripNonWord (trimStr (lowerStr title))))

/-- The slug derivation as the specification words it, with run collapsing
written directly on maximal runs: a character satisfying `p` together with
the whole run following it becomes one hyphen. -/
def collapseRunsSpec (p : Char → Bool) : Str → Str
  | [] => []
  | c :: rest =>
    if p c then '-' :: collapseRunsSpec p (rest.dropWhile p)
    else c :: collapseRunsSpec p rest
termination_by l => l.length
decreasing_by
  · simp only [List.length_cons]
    have hlen : (rest.dropWhile p).length ≤ rest.length :=
      List.Sublist.length_le (List.dropWhile_sublist p)
    omega
  · simp only [List.length_cons]
    omega

/-- The specification's slug contract, phrased over maximal runs:
lowercasing, trimming, stripping every character that is not a
letter/digit/underscore/hyphen/whitespace, collapsing each whitespace run
into a single hyphen, then collapsing hyphen runs into one. -/
def slugSpec (title : Str) : Str :=
  collapseRunsSpec isHyph
    (collapseRunsSpec isWS
      (List.filter (fun c => isWordChar c || isWS c || isHyph c)
        (trimStr (List.map Char.toLower title))))

/-- Decimal value of a digit string, most significant digit first. -/
def digitsToNat (l : Str) : Nat :=
  l.foldl (fun acc c => acc * 10 + (c.toNat - 48)) 0

/-- A calendar date as year, month and day numbers. -/
structure CalDate where
  year : Nat
  month : Nat
  day : Nat
deriving DecidableEq

/-- Bounds guard shared by every branch of the calendar-date parser: a
parsed date always has a four-digit-representable year, a month in 1..12
and a day in 1..31. -/
def mkDate (y m d : Nat) : Option CalDate :=
  if 1 ≤ m && m ≤ 12 && 1 ≤ d && d ≤ 31 && y ≤ 9999 then some ⟨y, m, d⟩ else none

/-- Month names accepted by the permissive parser, with their numbers. -/
def monthNames : List (Str × Nat) :=
  [("january".data, 1), ("february".data, 2), ("march".data, 3),
   ("april".data, 4), ("may".data, 5), ("june".data, 6),
   ("july".data, 7), ("august".data, 8), ("september".data, 9),
   ("october".data, 10), ("november".data, 11), ("december".data, 12)]

/-- Case-insensitive month-name lookup. -/
def lookupMonth (tok : Str) : Option Nat :=
  (monthNames.find? (fun mn => mn.1 == lowerStr tok)).map (fun mn => mn.2)

/-- ISO branch of the calendar-date parser: `YYYY-MM-DD` with digit and
range checks. -/
def parseISODate (t : Str) : Option CalDate :=
  match t with
  | [y1, y2, y3, y4, '-', m1, m2, '-', d1, d2] =>
    if y1.isDigit && y2.isDigit && y3.isDigit && y4.isDigit &&
       m1.isDigit && m2.isDigit && d1.isDigit && d2.isDigit then
      mkDate (digitsToNat [y1, y2, y3, y4]) (digitsToNat [m1, m2]) (digitsToNat [d1, d2])
    else none
  | _ => none

/-- Trailing four-digit-year step of the month-name branch: the remainder
must be exactly four digits, combined with the month and day already
read. -/
def parseYear4 (l : Str) (m d : Nat) : Option CalDate :=
  match l with
  | [c1, c2, c3, c4] =>
    if c1.isDigit && c2.isDigit && c3.isDigit && c4.isDigit then
      mkDate (digitsToNat [c1, c2, c3, c4]) m d
    else none
  | _ => none

/-- Month-name branch of the calendar-date parser: a month name, a one- or
two-digit day, an optional comma, and a four-digit year. -/
def parseMonthNameDate (t : Str) : Option CalDate :=
  let sp := t.span (fun c => c.isAlpha)
  match lookupMonth sp.1 with
  | none => none
  | some m =>
    let r2 := sp.2.dropWhile isWS
    let dd := r2.span (fun c => c.isDigit)
    if dd.1.isEmpty || 2 < dd.1.length then none
    else
      let r4 := match dd.2 with
        | ',' :: rest => rest
        | other => other
      parseYear4 (r4.dropWhile isWS) m (digitsToNat dd.1)

/-- Modelled from the spec: the permissive calendar-date parser behind
`new Date(dateString)` in `normalizeDate`.  The engine's date parsing is a
JavaScript platform builtin and not part of this repository; following the
spec it accepts the canonical `YYYY-MM-DD` form and long-hand forms such as
`"March 5, 2025"`, yielding the calendar date, and rejects everything
else.  It is timezone-free: the calendar date read is the one emitted. -/
def parseCalendarDate (s : Str) : Option CalDate :=
  let t := trimStr s
  match parseISODate t with
  | some c => some c
  | none => parseMonthNameDate t

/-- Two-digit zero-padding of an hour, minute, month or day value as
performed by `padStart(2, '0')`, on the two-digit range the parsers
produce. -/
def pad2 (n : Nat) : Str :=
  if n < 10 then ['0', Nat.digitChar n]
  else [Nat.digitChar (n / 10), Nat.digitChar (n % 10)]

/-- The four-digit year field of `toISOString`. -/
def pad4 (y : Nat) : Str :=
  [Nat.digitChar (y / 1000 % 10), Nat.digitChar (y / 100 % 10),
   Nat.digitChar (y / 10 % 10), Nat.digitChar (y % 10)]

/-- The date part of `toISOString`: `YYYY-MM-DD`. -/
def formatDate (c : CalDate) : Str :=
  pad4 c.year ++ '-' :: (pad2 c.month ++ '-' :: pad2 c.day)

/-- Recognizer for the canonical form `YYYY-MM-DD`. -/
def isDateShape (l : Str) : Bool :=
  match l with
  | [a, b, c, d, '-', e, f, '-', g, h] =>
    a.isDigit && b.isDigit && c.isDigit && d.isDigit &&
    e.isDigit && f.isDigit && g.isDigit && h.isDigit
  | _ => false

/-- The error thrown by `normalizeDate` in `event.model.ts`. -/
def invalidDateMsg : Str :=
  "Invalid date format. Please provide a valid date.".data

/-- `normalizeDate` from `event.model.ts`: parse the date string
permissively; on success return the canonical `YYYY-MM-DD` form, otherwise
throw the invalid-date error. -/
def normalizeDate (s : Str) : Except Str Str :=
  match parseCalendarDate s with
  | some c => .ok (formatDate c)
  | none => .error invalidDateMsg

/-- The strict 24-hour regex of `normalizeTime`: `[01]` digit or `2[0-3]`,
a colon, `[0-5]` and a digit, anchored at both ends. -/
def matches24 (l : Str) : Bool :=
  match l with
  | [h1, h2, ':', m1, m2] =>
    (((h1 == '0' || h1 == '1') && h2.isDigit) ||
      (h1 == '2' && ('0' ≤ h2 && h2 ≤ '3'))) &&
    ('0' ≤ m1 && m1 ≤ '5') && m2.isDigit
  | _ => false

/-- Bounds guard shared by every branch of the time-of-day parser: a
parsed time always has an hour in 0..23 and a minute in 0..59. -/
def mkTime (h m : Nat) : Option (Nat × Nat) :=
  if h ≤ 23 && m ≤ 59 then some (h, m) else none

/-- Modelled from the spec: the time-of-day expression parser behind
`new Date('1970-01-01 ' + timeString)` with `getHours` and `getMinutes` in
`normalizeTime`.  The engine's date-time parsing is a JavaScript platform
builtin and not part of this repository; following the spec it accepts an
hour, a colon, a two-digit minute and an optional case-insensitive
meridiem, yielding the 24-hour hour and minute pair. -/
def parseTimeOfDay (s : Str) : Option (Nat × Nat) :=
  let t := trimStr s
  let hd := t.span (fun c => c.isDigit)
  if hd.1.isEmpty || 2 < hd.1.length then none
  else match hd.2 with
    | ':' :: m1 :: m2 :: rest =>
      if m1.isDigit && m2.isDigit then
        let hr := digitsToNat hd.1
        let mi := digitsToNat [m1, m2]
        if rest.isEmpty then mkTime hr mi
        else
          let mer := lowerStr (trimStr rest)
          if mer == "am".data then
            if 1 ≤ hr && hr ≤ 12 then mkTime (hr % 12) mi else none
          else if mer == "pm".data then
            if 1 ≤ hr && hr ≤ 12 then mkTime (hr % 12 + 12) mi else none
          else none
      else none
    | _ => none

/-- The error thrown by `normalizeTime` in `event.model.ts`. -/
def invalidTimeMsg : Str :=
  "Invalid time format. Please use HH:MM format (24-hour).".data

/-- `normalizeTime` from `event.model.ts`: a string already in strict
24-hour `HH:MM` form (after trimming) is returned trimmed; otherwise the
string is parsed as a time-of-day expression and the hour and minute are
zero-padded into `HH:MM`; otherwise the invalid-time error is thrown. -/
def normalizeTime (s : Str) : Except Str Str :=
  if matches24 (trimStr s) then .ok (trimStr s)
  else match parseTimeOfDay s with
    | some hm => .ok (pad2 hm.1 ++ ':' :: pad2 hm.2)
    | none => .error invalidTimeMsg

/-- `pat` occurs at the start of the second list. -/
def startsWithPat : Str → Str → Bool
  | [], _ => true
  | _ :: _, [] => false
  | a :: as, b :: bs => a == b && startsWithPat as bs

/-- `pat` occurs contiguously somewhere in the second list; used to state
that an error message names the offending field or identifier. -/
def hasSubSeq (pat : Str) : Str → Bool
  | [] => pat == ([] : Str)
  | c :: rest => startsWithPat pat (c :: rest) || hasSubSeq pat rest

/-- An Event document: the `_id` and the schema paths of `eventSchema`. -/
structure Event where
  id : Str
  title : Str
  slug : Str
  description : Str
  overview : Str
  image : Str
  venue : Str
  location : Str
  date : Str
  time : Str
  mode : Str
  audience : Str
  organizer : Str
  agenda : List Str
  tags : List Str
deriving DecidableEq

/-- Path validation of `eventSchema` in schema order: `required` checks
(for mongoose a `required` string or array path rejects the empty value),
then the `mode` enum.  `slug` has no `required` constraint.  Returns the
message of the first failing validator. -/
def validateEvent (e : Event) : Option Str :=
  if e.title = [] then some "Event title is required".data
  else if e.description = [] then some "Event description is required".data
  else if e.overview = [] then some "Event overview is required".data
  else if e.image = [] then some "Event image is required".data
  else if e.venue = [] then some "Event venue is required".data
  else if e.location = [] then some "Event location is required".data
  else if e.date = [] then some "Event date is required".data
  else if e.time = [] then some "Event time is required".data
  else if e.mode = [] then some "Event mode is required".data
  else if !(e.mode == "online".data || e.mode == "offline".data || e.mode == "hybrid".data) then
    some "Mode must be either online, offline, or hybrid".data
  else if e.audience = [] then some "Event audience is required".data
  else if e.agenda = [] then some "Event agenda is required".data
  else if e.organizer = [] then some "Event organizer is required".data
  else if e.tags = [] then some "Event tags are required".data
  else none

/-- Time half of the Event pre-save hook: when the document is new or
`time` was modified, assign the normalized time (which passes through the
path's `trim` setter); a thrown error aborts the hook. -/
def eventPreSaveTime (e : Event) (isNew mTime : Bool) : Except Str Event :=
  if isNew || mTime then
    match normalizeTime e.time with
    | .error msg => .error msg
    | .ok t => .ok { e with time := trimStr t }
  else .ok e

/-- The `eventSchema.pre('save')` hook of `event.model.ts`: when the
document is new or the source field was modified, assign the generated
slug (which passes through the slug path's `lowercase` and `trim`
setters), then the normalized date, then the normalized time; the first
thrown error aborts the hook. -/
def eventPreSave (e : Event) (isNew mTitle mDate mTime : Bool) : Except Str Event :=
  let e1 := if isNew || mTitle
    then { e with slug := trimStr (lowerStr (generateSlug e.title)) }
    else e
  if isNew || mDate then
    match normalizeDate e1.date with
    | .error msg => .error msg
    | .ok d => eventPreSaveTime { e1 with date := trimStr d } isNew mTime
  else eventPreSaveTime e1 isNew mTime

/-- Modelled from the spec: the duplicate-key rejection delivered by the
document store for the unique index `eventSchema.index({ slug: 1 },
{ unique: true })`; the store itself is an external collaborator. -/
def slugDupMsg : Str :=
  "E11000 duplicate key error: index slug_1".data

/-- Modelled from the spec: the duplicate-key rejection of the store's
primary `_id` index. -/
def idDupMsg : Str :=
  "E11000 duplicate key error: index _id_".data

/-- One Event write against the store: mongoose runs path validation, then
the pre-save hook, and the store then enforces its unique indexes before
committing the single-document insert or replace.  On any failure the
store is returned unchanged together with the error. -/
def saveEvent (store : List Event) (e : Event) (isNew mTitle mDate mTime : Bool) :
    List Event × Option Str :=
  match validateEvent e with
  | some msg => (store, some msg)
  | none =>
    match eventPreSave e isNew mTitle mDate mTime with
    | .error msg => (store, some msg)
    | .ok e2 =>
      if isNew && store.any (fun x => x.id == e2.id) then (store, some idDupMsg)
      else if store.any (fun x => x.id != e2.id && x.slug == e2.slug) then
        (store, some slugDupMsg)
      else if isNew then (store ++ [e2], none)
      else (store.map (fun x => if x.id == e2.id then e2 else x), none)

/-- A Booking document: the `_id` and the schema paths of
`bookingSchema`. -/
structure Booking where
  id : Str
  eventId : Str
  email : Str
deriving DecidableEq

/-- The character class of the email validator of `bookingSchema`:
anything but whitespace and the at sign. -/
def isEmailChar (c : Char) : Bool := !isWS c && c != '@'

/-- Split a string at its first at sign, if any. -/
def splitAtAt : Str → Option (Str × Str)
  | [] => none
  | c :: rest =>
    if c = '@' then some ([], rest)
    else match splitAtAt rest with
      | none => none
      | some p => some (c :: p.1, p.2)

/-- A dot occurs strictly inside the list: not first and not last. -/
def hasInnerDot : Str → Bool
  | [] => false
  | [_] => false
  | _ :: rest => rest.dropLast.contains '.'

/-- The email validator regex of `bookingSchema`: one or more characters
that are neither whitespace nor at signs, an at sign, then a domain of the
same characters containing an interior dot, anchored at both ends. -/
def emailMatch (l : Str) : Bool :=
  match splitAtAt l with
  | none => false
  | some p =>
    !p.1.isEmpty && p.1.all isEmailChar && p.2.all isEmailChar && hasInnerDot p.2

/-- Path validation of `bookingSchema` in schema order: the `required`
checks, then the email shape validator, run on the value produced by the
`trim` and `lowercase` setters. -/
def validateBooking (b : Booking) : Option Str :=
  if b.eventId = [] then some "Event ID is required".data
  else if b.email = [] then some "Email is required".data
  else if !emailMatch b.email then some "Please provide a valid email address".data
  else none

/-- The referential-integrity error message of `bookingSchema.pre('save')`,
interpolating the missing event id. -/
def missingEventMsg (eid : Str) : Str :=
  "Event with ID ".data ++ eid ++
    " does not exist. Cannot create booking for non-existent event.".data

/-- The `bookingSchema.pre('save')` hook of `booking.model.ts`: when the
document is new or `eventId` was modified, ask the store whether an Event
with that id exists; if none does, throw the referential-integrity error,
otherwise pass the document through unchanged. -/
def bookingPreSave (events : List Event) (b : Booking) (isNew mEid : Bool) :
    Except Str Booking :=
  if isNew || mEid then
    if events.any (fun ev => ev.id == b.eventId) then .ok b
    else .error (missingEventMsg b.eventId)
  else .ok b

/-- One Booking write against the store: the `trim` and `lowercase`
setters of the email path, then path validation, then the pre-save
existence check, then the single-document commit.  On any failure the
store is returned unchanged together with the error. -/
def saveBooking (events : List Event) (store : List Booking) (b : Booking)
    (isNew mEid : Bool) : List Booking × Option Str :=
  let b1 := { b with email := lowerStr (trimStr b.email) }
  match validateBooking b1 with
  | some msg => (store, some msg)
  | none =>
    match bookingPreSave events b1 isNew mEid with
    | .error msg => (store, some msg)
    | .ok b2 =>
      if isNew then (store ++ [b2], none)
      else (store.map (fun x => if x.id == b2.id then b2 else x), none)

/-- A fully valid Event titled `"Launch Day"`. -/
def evLaunch1 : Event :=
  { id := "e1".data, title := "Launch Day".data, slug := [],
    description := "desc".data, overview := "ov".data, image := "img".data,
    venue := "hall".data, location := "city".data, date := "2025-03-05".data,
    time := "09:00".data, mode := "online".data, audience := "devs".data,
    organizer := "org".data, agenda := ["opening".data], tags := ["tech".data] }

/-- A second fully valid Event, also titled `"Launch Day"`. -/
def evLaunch2 : Event := { evLaunch1 with id := "e2".data }

/-- `evLaunch1` as the pre-save hook persists it. -/
def evLaunch1Saved : Event := { evLaunch1 with slug := "launch-day".data }

/-- A fully valid Event whose title consists only of stripped
punctuation. -/
def evBang : Event := { evLaunch1 with id := "e3".data, title := "!!!".data }

/-- `evBang` as the pre-save hook persists it: its slug is empty. -/
def evBangSaved : Event := { evBang with slug := [] }

/-- An Event with an empty (missing) title. -/
def evNoTitle : Event := { evLaunch1 with id := "e4".data, title := [] }

/-- A Booking whose `eventId` matches `evLaunch1Saved`. -/
def bkGood : Booking :=
  { id := "b1".data, eventId := "e1".data, email := "  USER@Example.com ".data }

/-- A Booking whose `eventId` matches no Event. -/
def bkOrphan : Booking :=
  { id := "b2".data, eventId := "zzz".data, email := "a@b.c".data }

/-- A Booking whose email fails the shape validator. -/
def bkBadEmail : Booking :=
  { id := "b3".data, eventId := "e1".data, email := "not-an-email".data }

example : normalizeDate "March 5, 2025".data = .ok "2025-03-05".data := by decide
example : normalizeTime "9:05am".data = .ok "09:05".data := by decide
example : normalizeTime "2:30 PM".data = .ok "14:30".data := by decide
example : normalizeTime "09:05".data = .ok "09:05".data := by decide
example : lowerStr (trimStr "  USER@Example.com ".data) = "user@example.com".data := by decide
example : emailMatch "user@example.com".data = true := by decide
example : emailMatch "not-an-email".data = false := by decide
example : saveEvent [] evLaunch1 true true true true = ([evLaunch1Saved], none) := by decide
example : saveEvent [evLaunch1Saved] evLaunch2 true true true true
    = ([evLaunch1Saved], some slugDupMsg) := by decide
example : saveEvent [] evBang true true true true = ([evBangSaved], none) := by decide
example : saveBooking [evLaunch1Saved] [] bkGood true true
    = ([{ bkGood with email := "user@example.com".data }], none) := by decide
example : saveBooking [evLaunch1Saved] [] bkOrphan true true
    = ([], some (missingEventMsg "zzz".data)) := by decide

/-- Absence of adjacent hyphens, the shape left by the final collapsing
step of `generateSlug`. -/
def noDH : Str → Prop
  | [] => True
  | [_] => True
  | a :: b :: rest => ¬(a = '-' ∧ b = '-') ∧ noDH (b :: rest)

theorem toNat_ofNat_valid {n : Nat} (h : n.isValidChar) :
    (Char.ofNat n).toNat = n := by
  simp [Char.ofNat, h, Char.ofNatAux, Char.toNat, UInt32.toNat]

theorem toLower_toLower (c : Char) :
    Char.toLower (Char.toLower c) = Char.toLower c := by
  simp only [Char.toLower]
  by_cases hc : c.toNat ≥ 65 ∧ c.toNat ≤ 90
  · rw [if_pos hc, if_neg]
    rw [toNat_ofNat_valid (Or.inl (by omega))]
    omega
  · rw [if_neg hc, if_neg hc]

theorem collapseAux_eq_spec (p : Char → Bool) :
    ∀ l : Str, collapseAux p false l = collapseRunsSpec p l ∧
      collapseAux p true l = collapseRunsSpec p (l.dropWhile p) := by
  intro l
  induction l with
  | nil => constructor <;> simp [collapseAux, collapseRunsSpec]
  | cons c rest ih =>
    by_cases hc : p c
    · constructor
      · rw [collapseRunsSpec]
        simp [collapseAux, hc, ih.2]
      · rw [List.dropWhile_cons_of_pos hc, collapseAux]
        simp [hc, ih.2]
    · have hc' : p c = false := by simpa using hc
      constructor
      · rw [collapseRunsSpec]
        simp [collapseAux, hc', ih.1]
      · rw [List.dropWhile_cons_of_neg (by simp [hc']), collapseRunsSpec]
        simp [collapseAux, hc', ih.1]

theorem mem_collapseAux {p : Char → Bool} {a : Char} :
    ∀ {flag : Bool} {l : Str}, a ∈ collapseAux p flag l →
      a = '-' ∨ (a ∈ l ∧ p a = false) := by
  intro flag l
  induction l generalizing flag with
  | nil => simp [collapseAux]
  | cons c rest ih =>
    intro h
    by_cases hc : p c
    · cases flag with
      | false =>
        have hstep : collapseAux p false (c :: rest) = '-' :: collapseAux p true rest := by
          simp [collapseAux, hc]
        rw [hstep, List.mem_cons] at h
        rcases h with rfl | h
        · exact Or.inl rfl
        · rcases ih h with h' | h'
          · exact Or.inl h'
          · exact Or.inr ⟨List.mem_cons_of_mem _ h'.1, h'.2⟩
      | true =>
        have hstep : collapseAux p true (c :: rest) = collapseAux p true rest := by
          simp [collapseAux, hc]
        rw [hstep] at h
        rcases ih h with h' | h'
        · exact Or.inl h'
        · exact Or.inr ⟨List.mem_cons_of_mem _ h'.1, h'.2⟩
    · have hc' : p c = false := by simpa using hc
      have hstep : collapseAux p flag (c :: rest) = c :: collapseAux p false rest := by
        cases flag <;> simp [collapseAux, hc']
      rw [hstep, List.mem_cons] at h
      rcases h with rfl | h
      · exact Or.inr ⟨List.mem_cons_self _ _, hc'⟩
      · rcases ih h with h' | h'
        · exact Or.inl h'
        · exact Or.inr ⟨List.mem_cons_of_mem _ h'.1, h'.2⟩

theorem collapseAux_eq_self {p : Char → Bool} :
    ∀ {l : Str}, (∀ a ∈ l, p a = false) → collapseAux p false l = l := by
  intro l
  induction l with
  | nil => intro _; rfl
  | cons c rest ih =>
    intro h
    have hc := h c (List.mem_cons_self _ _)
    simp only [collapseAux, hc, Bool.false_eq_true, if_false, List.cons.injEq, true_and]
    exact ih (fun a ha => h a (List.mem_cons_of_mem _ ha))

theorem dropWhile_eq_self_of {p : Char → Bool} {l : Str}
    (h : ∀ a ∈ l, p a = false) : l.dropWhile p = l := by
  cases l with
  | nil => rfl
  | cons c rest =>
    exact List.dropWhile_cons_of_neg (by simp [h c (List.mem_cons_self _ _)])

theorem trimStr_eq_self {l : Str} (h : ∀ a ∈ l, isWS a = false) :
    trimStr l = l := by
  unfold trimStr
  rw [dropWhile_eq_self_of h,
      dropWhile_eq_self_of (fun a ha => h a (List.mem_reverse.mp ha)),
      List.reverse_reverse]

theorem map_eq_self_of {f : Char → Char} :
    ∀ {l : Str}, (∀ a ∈ l, f a = a) → l.map f = l := by
  intro l
  induction l with
  | nil => intro _; rfl
  | cons c rest ih =>
    intro h
    simp only [List.map_cons, h c (List.mem_cons_self _ _), List.cons.injEq, true_and]
    exact ih (fun a ha => h a (List.mem_cons_of_mem _ ha))

theorem filter_eq_self_of {p : Char → Bool} :
    ∀ {l : Str}, (∀ a ∈ l, p a = true) → l.filter p = l := by
  intro l
  induction l with
  | nil => intro _; rfl
  | cons c rest ih =>
    intro h
    simp only [List.filter_cons, h c (List.mem_cons_self _ _), if_true, List.cons.injEq, true_and]
    exact ih (fun a ha => h a (List.mem_cons_of_mem _ ha))

theorem noDH_tail {a : Char} : ∀ {l : Str}, noDH (a :: l) → noDH l := by
  intro l h
  cases l with
  | nil => trivial
  | cons b t => exact h.2

theorem collapseAux_true_head {p : Char → Bool} :
    ∀ {l : Str} {c : Char} {t : Str}, collapseAux p true l = c :: t → p c = false := by
  intro l
  induction l with
  | nil => intro c t h; simp [collapseAux] at h
  | cons d rest ih =>
    intro c t h
    by_cases hd : p d
    · have hstep : collapseAux p true (d :: rest) = collapseAux p true rest := by
        simp [collapseAux, hd]
      rw [hstep] at h
      exact ih h
    · have hd' : p d = false := by simpa using hd
      have hstep : collapseAux p true (d :: rest) = d :: collapseAux p false rest := by
        simp [collapseAux, hd']
      rw [hstep] at h
      injection h with h1 h2
      subst h1
      exact hd'

theorem noDH_collapseAux :
    ∀ l : Str, noDH (collapseAux isHyph true l) ∧ noDH (collapseAux isHyph false l) := by
  intro l
  induction l with
  | nil => exact ⟨trivial, trivial⟩
  | cons c rest ih =>
    by_cases hc : isHyph c
    · constructor
      · have hstep : collapseAux isHyph true (c :: rest) = collapseAux isHyph true rest := by
          simp [collapseAux, hc]
        rw [hstep]
        exact ih.1
      · have hstep : collapseAux isHyph false (c :: rest)
            = '-' :: collapseAux isHyph true rest := by
          simp [collapseAux, hc]
        rw [hstep]
        rcases hrec : collapseAux isHyph true rest with _ | ⟨b, tl⟩
        · trivial
        · have hb := collapseAux_true_head hrec
          refine ⟨?_, hrec ▸ ih.1⟩
          rintro ⟨-, rfl⟩
          simp [isHyph] at hb
    · have hc' : isHyph c = false := by simpa using hc
      have hstep : ∀ flag, collapseAux isHyph flag (c :: rest)
          = c :: collapseAux isHyph false rest := by
        intro flag
        cases flag <;> simp [collapseAux, hc']
      constructor <;> rw [hstep]
      all_goals
        rcases hrec : collapseAux isHyph false rest with _ | ⟨b, tl⟩
        · trivial
        · refine ⟨?_, hrec ▸ ih.2⟩
          rintro ⟨rfl, -⟩
          simp [isHyph] at hc'

theorem collapseAux_hyph_eq_self : ∀ {l : Str}, noDH l → collapseAux isHyph false l = l := by
  intro l
  induction l with
  | nil => intro _; rfl
  | cons c rest ih =>
    intro h
    by_cases hc : isHyph c
    · have hceq : c = '-' := by simpa [isHyph] using hc
      subst hceq
      have hstep : collapseAux isHyph false ('-' :: rest)
          = '-' :: collapseAux isHyph true rest := by
        simp [collapseAux, isHyph]
      rw [hstep]
      cases rest with
      | nil => rfl
      | cons b tl =>
        have hb : b ≠ '-' := fun hb' => h.1 ⟨rfl, hb'⟩
        have hb' : isHyph b = false := by simp [isHyph, hb]
        have h1 : collapseAux isHyph true (b :: tl) = b :: collapseAux isHyph false tl := by
          simp [collapseAux, hb']
        have h2 : collapseAux isHyph false (b :: tl) = b :: collapseAux isHyph false tl := by
          simp [collapseAux, hb']
        rw [h1, ← h2, ih h.2]
    · have hc' : isHyph c = false := by simpa using hc
      have hstep : collapseAux isHyph false (c :: rest)
          = c :: collapseAux isHyph false rest := by
        simp [collapseAux, hc']
      rw [hstep, ih (noDH_tail h)]

theorem mem_generateSlug {t : Str} {a : Char} (h : a ∈ generateSlug t) :
    isWS a = false ∧ Char.toLower a = a ∧ (isWordChar a || isWS a || isHyph a) = true := by
  by_cases ha : a = '-'
  · subst ha
    exact ⟨by decide, by decide, by decide⟩
  · unfold generateSlug collapseHyphens at h
    rcases mem_collapseAux h with rfl | ⟨h2, hH⟩
    · exact absurd rfl ha
    · unfold collapseWS at h2
      rcases mem_collapseAux h2 with rfl | ⟨h3, hW⟩
      · exact absurd rfl ha
      · unfold stripNonWord at h3
        rw [List.mem_filter] at h3
        have hkeep := h3.2
        have h4 := h3.1
        unfold trimStr at h4
        rw [List.mem_reverse] at h4
        have h4a := List.dropWhile_subset _ h4
        rw [List.mem_reverse] at h4a
        have h5 := List.dropWhile_subset _ h4a
        unfold lowerStr at h5
        rcases List.mem_map.mp h5 with ⟨c₀, -, rfl⟩
        exact ⟨hW, toLower_toLower c₀, hkeep⟩

/-- C5: slug normalization is idempotent — re-normalizing the slug derived
from any title yields the same string. -/
theorem slug_normalization_idempotent :
    ∀ t : Str, generateSlug (generateSlug t) = generateSlug t := by
  intro t
  have hch : ∀ a ∈ generateSlug t,
      isWS a = false ∧ Char.toLower a = a ∧ (isWordChar a || isWS a || isHyph a) = true :=
    fun a ha => mem_generateSlug ha
  have hlower : lowerStr (generateSlug t) = generateSlug t :=
    map_eq_self_of (fun a ha => (hch a ha).2.1)
  have htrim : trimStr (generateSlug t) = generateSlug t :=
    trimStr_eq_self (fun a ha => (hch a ha).1)
  have hfilter : stripNonWord (generateSlug t) = generateSlug t :=
    filter_eq_self_of (fun a ha => (hch a ha).2.2)
  have hws : collapseWS (generateSlug t) = generateSlug t :=
    collapseAux_eq_self (fun a ha => (hch a ha).1)
  have hnoDH : noDH (generateSlug t) := by
    unfold generateSlug collapseHyphens
    exact (noDH_collapseAux _).2
  calc generateSlug (generateSlug t)
      = collapseHyphens (collapseWS (stripNonWord (trimStr (lowerStr (generateSlug t))))) := rfl
    _ = collapseHyphens (generateSlug t) := by rw [hlower, htrim, hfilter, hws]
    _ = generateSlug t := collapseAux_hyph_eq_self hnoDH

/-- C1: for every title the Event normalizer derives the slug by
lowercasing, trimming, stripping every character that is not a
letter/digit/underscore/hyphen/whitespace, collapsing each whitespace run
into a single hyphen, then collapsing hyphen runs into one, in that order
(the run-based reading of the spec agrees with `generateSlug` on every
title); in particular the title `"My Cool Event!!"` yields the slug
`"my-cool-event"`. -/
theorem slug_contract_holds :
    (∀ t : Str, generateSlug t = slugSpec t) ∧
      generateSlug "My Cool Event!!".data = "my-cool-event".data := by
  constructor
  · intro t
    unfold generateSlug slugSpec collapseHyphens collapseWS stripNonWord lowerStr
    rw [(collapseAux_eq_spec isWS _).1, (collapseAux_eq_spec isHyph _).1]
  · decide

/-- C10: the title `"!!!"` is non-empty yet normalizes to the empty slug,
and since `eventSchema` places no required or non-emptiness constraint on
`slug`, the full Event save pipeline accepts such a document and persists
it with an empty slug. -/
theorem empty_slug_possible :
    generateSlug "!!!".data = [] ∧ "!!!".data.isEmpty = false ∧
      validateEvent evBang = none ∧
      saveEvent [] evBang true true true true = ([evBangSaved], none) ∧
      evBangSaved.slug = [] ∧ evBangSaved.title = "!!!".data := by
  refine ⟨by decide, by decide, by decide, by decide, by decide, by decide⟩

theorem not_WS_of_ge {c : Char} (h : 33 ≤ c.toNat) : isWS c = false := by
  have e : ∀ (d : Char), d.toNat ≤ 32 → (c == d) = false := by
    intro d hd
    rw [beq_eq_false_iff_ne]
    rintro rfl
    omega
  unfold isWS
  rw [e ' ' (by decide), e '\t' (by decide), e '\n' (by decide),
      e '\r' (by decide), e '\x0b' (by decide), e '\x0c' (by decide)]
  rfl

theorem isDigit_toNat {c : Char} (h : c.isDigit = true) :
    48 ≤ c.toNat ∧ c.toNat ≤ 57 := by
  simp [Char.isDigit] at h
  exact ⟨h.1, h.2⟩

theorem isDigit_not_WS {c : Char} (h : c.isDigit = true) : isWS c = false :=
  not_WS_of_ge (by have := isDigit_toNat h; omega)

theorem digitChar_isDigit {n : Nat} (h : n < 10) : (Nat.digitChar n).isDigit = true := by
  interval_cases n <;> decide

theorem pad2_shape {n : Nat} (h : n < 100) :
    ∃ a b, pad2 n = [a, b] ∧ a.isDigit = true ∧ b.isDigit = true := by
  unfold pad2
  by_cases h10 : n < 10
  · exact ⟨'0', Nat.digitChar n, by simp [h10], by decide, digitChar_isDigit h10⟩
  · refine ⟨Nat.digitChar (n / 10), Nat.digitChar (n % 10), by simp [h10], ?_, ?_⟩
    · exact digitChar_isDigit (by omega)
    · exact digitChar_isDigit (Nat.mod_lt _ (by omega))

theorem pad4_shape (y : Nat) :
    ∃ a b c d, pad4 y = [a, b, c, d] ∧ a.isDigit = true ∧ b.isDigit = true ∧
      c.isDigit = true ∧ d.isDigit = true := by
  unfold pad4
  exact ⟨_, _, _, _, rfl, digitChar_isDigit (Nat.mod_lt _ (by omega)),
    digitChar_isDigit (Nat.mod_lt _ (by omega)), digitChar_isDigit (Nat.mod_lt _ (by omega)),
    digitChar_isDigit (Nat.mod_lt _ (by omega))⟩

theorem isDateShape_formatDate {c : CalDate} (hm : c.month < 100) (hd : c.day < 100) :
    isDateShape (formatDate c) = true := by
  obtain ⟨a, b, hab, ha, hb⟩ := pad2_shape hm
  obtain ⟨e, f, hef, he, hf⟩ := pad2_shape hd
  obtain ⟨p, q, r, s, hpq, hp, hq, hr, hs⟩ := pad4_shape c.year
  unfold formatDate
  rw [hab, hef, hpq]
  simp [isDateShape, ha, hb, he, hf, hp, hq, hr, hs]

theorem mkDate_eq_some {y m d : Nat} {c : CalDate} (h : mkDate y m d = some c) :
    c.year = y ∧ c.month = m ∧ c.day = d ∧
      1 ≤ m ∧ m ≤ 12 ∧ 1 ≤ d ∧ d ≤ 31 ∧ y ≤ 9999 := by
  unfold mkDate at h
  split at h
  case isTrue hcond =>
    simp only [Bool.and_eq_true, decide_eq_true_eq] at hcond
    injection h with h2
    subst h2
    exact ⟨rfl, rfl, rfl, hcond.1.1.1.1, hcond.1.1.1.2, hcond.1.1.2, hcond.1.2, hcond.2⟩
  case isFalse hcond => exact absurd h (by simp)

theorem parseISODate_bounds {t : Str} {c : CalDate} (h : parseISODate t = some c) :
    1 ≤ c.month ∧ c.month ≤ 12 ∧ 1 ≤ c.day ∧ c.day ≤ 31 ∧ c.year ≤ 9999 := by
  unfold parseISODate at h
  repeat split at h
  all_goals first
    | (have hmd := mkDate_eq_some h; omega)
    | (exact absurd h (by simp))

theorem parseYear4_bounds {l : Str} {m d : Nat} {c : CalDate}
    (h : parseYear4 l m d = some c) :
    1 ≤ c.month ∧ c.month ≤ 12 ∧ 1 ≤ c.day ∧ c.day ≤ 31 ∧ c.year ≤ 9999 := by
  unfold parseYear4 at h
  repeat split at h
  all_goals first
    | (have hmd := mkDate_eq_some h; omega)
    | (exact absurd h (by simp))

theorem parseMonthNameDate_bounds {t : Str} {c : CalDate}
    (h : parseMonthNameDate t = some c) :
    1 ≤ c.month ∧ c.month ≤ 12 ∧ 1 ≤ c.day ∧ c.day ≤ 31 ∧ c.year ≤ 9999 := by
  simp only [parseMonthNameDate] at h
  split at h
  · exact absurd h (by simp)
  · split at h
    · exact absurd h (by simp)
    · exact parseYear4_bounds h

theorem parseCalendarDate_bounds {s : Str} {c : CalDate}
    (h : parseCalendarDate s = some c) :
    1 ≤ c.month ∧ c.month ≤ 12 ∧ 1 ≤ c.day ∧ c.day ≤ 31 ∧ c.year ≤ 9999 := by
  simp only [parseCalendarDate] at h
  split at h
  · next c' heq =>
    injection h with h2
    subst h2
    exact parseISODate_bounds heq
  · next heq => exact parseMonthNameDate_bounds h

/-- C3: every date string the permissive calendar parser accepts
normalizes to the canonical `YYYY-MM-DD` form — in particular
`"March 5, 2025"` becomes `"2025-03-05"` — and every string the parser
fails on is rejected with the validation error naming the date field. -/
theorem date_normalization_contract :
    (∀ (s : Str) (c : CalDate), parseCalendarDate s = some c →
        normalizeDate s = .ok (formatDate c) ∧ isDateShape (formatDate c) = true) ∧
    normalizeDate "March 5, 2025".data = .ok "2025-03-05".data ∧
    (∀ s : Str, parseCalendarDate s = none →
        normalizeDate s = .error invalidDateMsg) ∧
    hasSubSeq "date".data invalidDateMsg = true := by
  refine ⟨?_, by decide, ?_, by decide⟩
  · intro s c h
    constructor
    · unfold normalizeDate
      rw [h]
    · have hb := parseCalendarDate_bounds h
      exact isDateShape_formatDate (by omega) (by omega)
  · intro s h
    unfold normalizeDate
    rw [h]

theorem date_normalization_contract_witness :
    normalizeDate "2025-12-31".data = .ok (formatDate ⟨2025, 12, 31⟩) ∧
      isDateShape (formatDate ⟨2025, 12, 31⟩) = true ∧
      normalizeDate "bogus".data = .error invalidDateMsg := by
  refine ⟨?_, ?_, ?_⟩
  · exact (date_normalization_contract.1 "2025-12-31".data ⟨2025, 12, 31⟩ (by decide)).1
  · exact (date_normalization_contract.1 "2025-12-31".data ⟨2025, 12, 31⟩ (by decide)).2
  · exact date_normalization_contract.2.2.1 "bogus".data (by decide)

theorem le_toNat_of_char_le {a c : Char} (h : a ≤ c) : a.toNat ≤ c.toNat := by
  rw [Char.le_def, UInt32.le_def, BitVec.le_def] at h
  simpa [Char.toNat, UInt32.toNat] using h

theorem not_WS_of_zero_le {c : Char} (h : ('0' : Char) ≤ c) : isWS c = false := by
  have h1 := le_toNat_of_char_le h
  have h2 : ('0' : Char).toNat = 48 := by decide
  exact not_WS_of_ge (by omega)

theorem mkTime_eq_some {h m : Nat} {r : Nat × Nat} (e : mkTime h m = some r) :
    r = (h, m) ∧ h ≤ 23 ∧ m ≤ 59 := by
  unfold mkTime at e
  split at e
  case isTrue hc =>
    simp only [Bool.and_eq_true, decide_eq_true_eq] at hc
    injection e with e2
    subst e2
    exact ⟨rfl, hc.1, hc.2⟩
  case isFalse hc => exact absurd e (by simp)

theorem parseTimeOfDay_bounds {s : Str} {r : Nat × Nat}
    (h : parseTimeOfDay s = some r) : r.1 ≤ 23 ∧ r.2 ≤ 59 := by
  simp only [parseTimeOfDay] at h
  iterate 8 all_goals try split at h
  all_goals first
    | (obtain ⟨rfl, b1, b2⟩ := mkTime_eq_some h; exact ⟨b1, b2⟩)
    | (exact absurd h (by simp))

theorem matches24_pad_fin :
    ∀ (h : Fin 24) (m : Fin 60), matches24 (pad2 h.val ++ ':' :: pad2 m.val) = true := by
  decide

theorem matches24_pad {h m : Nat} (hh : h < 24) (hm : m < 60) :
    matches24 (pad2 h ++ ':' :: pad2 m) = true :=
  matches24_pad_fin ⟨h, hh⟩ ⟨m, hm⟩

theorem matches24_inv {s : Str} (h : matches24 s = true) :
    ∃ c1 c2 c3 c4, s = [c1, c2, ':', c3, c4] ∧
      (((c1 = '0' ∨ c1 = '1') ∧ c2.isDigit = true) ∨
        (c1 = '2' ∧ '0' ≤ c2 ∧ c2 ≤ '3')) ∧
      ('0' ≤ c3 ∧ c3 ≤ '5') ∧ c4.isDigit = true := by
  unfold matches24 at h
  split at h
  · simp only [Bool.and_eq_true, Bool.or_eq_true, beq_iff_eq, decide_eq_true_eq] at h
    exact ⟨_, _, _, _, rfl, h.1.1, h.1.2, h.2⟩
  all_goals exact absurd h (by simp)

theorem matches24_trim {s : Str} (h : matches24 s = true) : trimStr s = s := by
  obtain ⟨c1, c2, c3, c4, rfl, hh, hm, hm2⟩ := matches24_inv h
  refine trimStr_eq_self ?_
  intro a ha
  simp only [List.mem_cons, List.not_mem_nil, or_false] at ha
  rcases ha with rfl | rfl | rfl | rfl | rfl
  · rcases hh with ⟨hc | hc, -⟩ | ⟨hc, -⟩ <;> subst hc <;> decide
  · rcases hh with ⟨-, hc⟩ | ⟨-, hc, -⟩
    · exact isDigit_not_WS hc
    · exact not_WS_of_zero_le hc
  · decide
  · exact not_WS_of_zero_le hm.1
  · exact isDigit_not_WS hm2

/-- C4: a time string already in strict 24-hour `HH:MM` form is accepted
unchanged; otherwise a string the time-of-day parser accepts has its hour
and minute zero-padded into `HH:MM` (in particular `"9:05am"` becomes
`"09:05"` and `"2:30 PM"` becomes `"14:30"`); otherwise the write is
rejected with the validation error naming the time field. -/
theorem time_normalization_contract :
    (∀ s : Str, matches24 s = true → normalizeTime s = .ok s) ∧
    (∀ (s : Str) (r : Nat × Nat), matches24 (trimStr s) = false →
        parseTimeOfDay s = some r →
        normalizeTime s = .ok (pad2 r.1 ++ ':' :: pad2 r.2) ∧
          matches24 (pad2 r.1 ++ ':' :: pad2 r.2) = true) ∧
    normalizeTime "9:05am".data = .ok "09:05".data ∧
    normalizeTime "2:30 PM".data = .ok "14:30".data ∧
    (∀ s : Str, matches24 (trimStr s) = false → parseTimeOfDay s = none →
        normalizeTime s = .error invalidTimeMsg) ∧
    hasSubSeq "time".data invalidTimeMsg = true := by
  refine ⟨?_, ?_, by decide, by decide, ?_, by decide⟩
  · intro s hs
    unfold normalizeTime
    rw [matches24_trim hs]
    simp [hs]
  · intro s r hm hp
    constructor
    · simp [normalizeTime, hm, hp]
    · obtain ⟨b1, b2⟩ := parseTimeOfDay_bounds hp
      exact matches24_pad (by omega) (by omega)
  · intro s hm hp
    simp [normalizeTime, hm, hp]

theorem time_normalization_contract_witness :
    normalizeTime "14:30".data = .ok "14:30".data ∧
      normalizeTime "7:45 pm".data = .ok (pad2 19 ++ ':' :: pad2 45) ∧
      normalizeTime "nonsense".data = .error invalidTimeMsg := by
  refine ⟨?_, ?_, ?_⟩
  · exact time_normalization_contract.1 "14:30".data (by decide)
  · exact (time_normalization_contract.2.1 "7:45 pm".data (19, 45) (by decide) (by decide)).1
  · exact time_normalization_contract.2.2.2.2.1 "nonsense".data (by decide) (by decide)

theorem startsWithPat_append : ∀ (pat l2 : Str), startsWithPat pat (pat ++ l2) = true := by
  intro pat
  induction pat with
  | nil => intro l2; rfl
  | cons c rest ih => intro l2; simp [startsWithPat, ih]

theorem hasSubSeq_here {pat l2 : Str} : hasSubSeq pat (pat ++ l2) = true := by
  cases pat with
  | nil =>
    cases l2 with
    | nil => rfl
    | cons c r => simp [hasSubSeq, startsWithPat]
  | cons c rest =>
    have hs := startsWithPat_append (c :: rest) l2
    rw [List.cons_append] at hs
    simp [hasSubSeq, hs]

theorem hasSubSeq_append_left {pat l2 : Str} :
    ∀ l1 : Str, hasSubSeq pat (l1 ++ pat ++ l2) = true := by
  intro l1
  rw [List.append_assoc]
  induction l1 with
  | nil => simpa using hasSubSeq_here
  | cons c rest ih => simp [hasSubSeq, ih]

/-- C2: on a Booking save where `eventId` is new or modified, the hook
queries the store for an Event with that id: if none exists the write is
rejected with the referential-integrity error, whose message contains the
missing event id, and if one exists the hook lets the write proceed with
the Booking unchanged. -/
theorem booking_referential_integrity (events : List Event) (b : Booking)
    (isNew mEid : Bool) (hflag : (isNew || mEid) = true) :
    (events.any (fun ev => ev.id == b.eventId) = false →
        bookingPreSave events b isNew mEid = .error (missingEventMsg b.eventId) ∧
        hasSubSeq b.eventId (missingEventMsg b.eventId) = true) ∧
    (events.any (fun ev => ev.id == b.eventId) = true →
        bookingPreSave events b isNew mEid = .ok b) := by
  constructor
  · intro hnone
    refine ⟨?_, ?_⟩
    · unfold bookingPreSave
      simp [hflag, hnone]
    · unfold missingEventMsg
      exact hasSubSeq_append_left _
  · intro hsome
    unfold bookingPreSave
    simp [hflag, hsome]

theorem booking_referential_integrity_witness :
    bookingPreSave ([] : List Event) bkOrphan true false
        = .error (missingEventMsg bkOrphan.eventId) ∧
      hasSubSeq bkOrphan.eventId (missingEventMsg bkOrphan.eventId) = true ∧
      bookingPreSave [evLaunch1Saved] bkGood true false = .ok bkGood := by
  refine ⟨?_, ?_, ?_⟩
  · exact ((booking_referential_integrity [] bkOrphan true false (by decide)).1 (by decide)).1
  · exact ((booking_referential_integrity [] bkOrphan true false (by decide)).1 (by decide)).2
  · exact (booking_referential_integrity [evLaunch1Saved] bkGood true false (by decide)).2
      (by decide)

theorem eventPreSave_slug_frame {e e' : Event} {mD mTi : Bool}
    (h : eventPreSave e false false mD mTi = .ok e') :
    e'.slug = e.slug := by
  unfold eventPreSave eventPreSaveTime at h
  cases mD <;> cases mTi
  all_goals (try simp at h)
  all_goals try (cases hnd : normalizeDate e.date <;> rw [hnd] at h)
  all_goals try (cases hnt : normalizeTime e.time <;> rw [hnt] at h)
  all_goals (try simp_all)
  all_goals (try subst h)
  all_goals rfl

theorem eventPreSave_date_frame {e e' : Event} {mT mTi : Bool}
    (h : eventPreSave e false mT false mTi = .ok e') :
    e'.date = e.date := by
  unfold eventPreSave eventPreSaveTime at h
  cases mT <;> cases mTi
  all_goals (try simp at h)
  all_goals try (cases hnd : normalizeDate e.date <;> rw [hnd] at h)
  all_goals try (cases hnt : normalizeTime e.time <;> rw [hnt] at h)
  all_goals (try simp_all)
  all_goals (try subst h)
  all_goals rfl

theorem eventPreSave_time_frame {e e' : Event} {mT mD : Bool}
    (h : eventPreSave e false mT mD false = .ok e') :
    e'.time = e.time := by
  unfold eventPreSave eventPreSaveTime at h
  cases mT <;> cases mD
  all_goals (try simp at h)
  all_goals try (cases hnd : normalizeDate e.date <;> rw [hnd] at h)
  all_goals try (cases hnt : normalizeTime e.time <;> rw [hnt] at h)
  all_goals (try simp_all)
  all_goals (try subst h)
  all_goals rfl

/-- C6: on a non-new Event save, the slug, date and time transformations
each run only when their source field (title, date, time) was modified on
that write: an update touching none of them (for example only `venue`)
passes the document through completely unchanged, and whenever the
corresponding modified-flag is off the stored slug, date and time each
survive the hook untouched. -/
theorem event_hook_frame :
    (∀ e : Event, eventPreSave e false false false false = .ok e) ∧
    (∀ (e e' : Event) (mD mTi : Bool),
        eventPreSave e false false mD mTi = .ok e' → e'.slug = e.slug) ∧
    (∀ (e e' : Event) (mT mTi : Bool),
        eventPreSave e false mT false mTi = .ok e' → e'.date = e.date) ∧
    (∀ (e e' : Event) (mT mD : Bool),
        eventPreSave e false mT mD false = .ok e' → e'.time = e.time) := by
  refine ⟨?_, ?_, ?_, ?_⟩
  · intro e
    simp [eventPreSave, eventPreSaveTime]
  · intro e e' mD mTi h
    exact eventPreSave_slug_frame h
  · intro e e' mT mTi h
    exact eventPreSave_date_frame h
  · intro e e' mT mD h
    exact eventPreSave_time_frame h

theorem event_hook_frame_witness :
    eventPreSave evLaunch1 false false false false = .ok evLaunch1 ∧
      evLaunch1.slug = evLaunch1.slug := by
  refine ⟨event_hook_frame.1 evLaunch1, ?_⟩
  exact event_hook_frame.2.1 evLaunch1 evLaunch1 false false (by decide)

/-- C7: every normalization or validation failure (slug, date and time
transformation errors, missing required field, enum violation, failed
referential-integrity check, duplicate keys) aborts the whole document
write before commit: on any erroring Event or Booking save the returned
store equals the original store. -/
theorem failed_write_atomic :
    (∀ (store : List Event) (e : Event) (isNew mT mD mTi : Bool)
        (store' : List Event) (msg : Str),
        saveEvent store e isNew mT mD mTi = (store', some msg) → store' = store) ∧
    (∀ (events : List Event) (store : List Booking) (b : Booking) (isNew mEid : Bool)
        (store' : List Booking) (msg : Str),
        saveBooking events store b isNew mEid = (store', some msg) → store' = store) := by
  constructor
  · intro store e isNew mT mD mTi store' msg h
    unfold saveEvent at h
    repeat' split at h
    all_goals simp_all
  · intro events store b isNew mEid store' msg h
    simp only [saveBooking] at h
    cases hv : validateBooking { b with email := lowerStr (trimStr b.email) } with
    | some m => rw [hv] at h; simp_all
    | none =>
      rw [hv] at h
      cases hp : bookingPreSave events { b with email := lowerStr (trimStr b.email) }
          isNew mEid with
      | error m => rw [hp] at h; simp_all
      | ok b2 =>
        rw [hp] at h
        cases isNew <;> simp_all

theorem failed_write_atomic_witness :
    saveEvent [] evNoTitle true true true true
        = ([], some "Event title is required".data) ∧
      ([] : List Event) = [] := by
  refine ⟨by decide, ?_⟩
  exact failed_write_atomic.1 [] evNoTitle true true true true []
    "Event title is required".data (by decide)

/-- C8: the slug is unique across persisted Events: a successful insert
into a store with pairwise-distinct slugs keeps the slugs pairwise
distinct, and when two Events titled `"Launch Day"` are written the second
write fails with the store's duplicate-slug rejection and the first
remains stored unchanged. -/
theorem slug_uniqueness :
    (∀ (store : List Event) (e : Event) (mT mD mTi : Bool) (store' : List Event),
        store.Pairwise (fun a b => a.slug ≠ b.slug) →
        saveEvent store e true mT mD mTi = (store', none) →
        store'.Pairwise (fun a b => a.slug ≠ b.slug)) ∧
    saveEvent [] evLaunch1 true true true true = ([evLaunch1Saved], none) ∧
    saveEvent [evLaunch1Saved] evLaunch2 true true true true
      = ([evLaunch1Saved], some slugDupMsg) ∧
    evLaunch2.title = evLaunch1.title := by
  refine ⟨?_, by decide, by decide, by decide⟩
  intro store e mT mD mTi store' hpw h
  unfold saveEvent at h
  cases hv : validateEvent e with
  | some m => rw [hv] at h; simp_all
  | none =>
    rw [hv] at h
    cases hp : eventPreSave e true mT mD mTi with
    | error m => rw [hp] at h; simp_all
    | ok e2 =>
      rw [hp] at h
      by_cases hid : store.any (fun x => x.id == e2.id) = true
      · simp [hid] at h
      · have hid' : store.any (fun x => x.id == e2.id) = false := by
          simpa using hid
        by_cases hsl : store.any (fun x => x.id != e2.id && x.slug == e2.slug) = true
        · simp [hid', hsl] at h
        · have hsl' : store.any (fun x => x.id != e2.id && x.slug == e2.slug) = false := by
            simpa using hsl
          simp only [hid', hsl', Bool.true_and, Bool.false_eq_true, if_false,
            Prod.mk.injEq, if_true, and_true] at h
          subst h
          rw [List.pairwise_append]
          refine ⟨hpw, List.pairwise_singleton _ _, ?_⟩
          intro a ha b hb
          rw [List.mem_singleton] at hb
          subst hb
          intro heq
          rw [List.any_eq_false] at hid' hsl'
          have ha1 := hid' a ha
          rw [Bool.not_eq_true, beq_eq_false_iff_ne] at ha1
          have ha2 := hsl' a ha
          apply ha2
          rw [Bool.and_eq_true]
          exact ⟨bne_iff_ne.mpr ha1, beq_iff_eq.mpr heq⟩

theorem slug_uniqueness_witness :
    ([evLaunch1Saved] : List Event).Pairwise (fun a b => a.slug ≠ b.slug) :=
  slug_uniqueness.1 [] evLaunch1 true true true [evLaunch1Saved]
    (by simp) (by decide)

theorem validateBooking_none {b : Booking} (h : validateBooking b = none) :
    emailMatch b.email = true := by
  unfold validateBooking at h
  split at h
  · exact absurd h (by simp)
  · split at h
    · exact absurd h (by simp)
    · split at h
      case isTrue => exact absurd h (by simp)
      case isFalse hm => simpa using hm

theorem bookingPreSave_ok {events : List Event} {b b' : Booking} {isNew mEid : Bool}
    (h : bookingPreSave events b isNew mEid = .ok b') : b' = b := by
  unfold bookingPreSave at h
  split at h
  · split at h
    · injection h with h2
      exact h2.symm
    · exact absurd h (by simp)
  · injection h with h2
    exact h2.symm

/-- C9: on a successful Booking creation the stored email is the trimmed,
lowercased form of the supplied email and satisfies the schema's email
shape validator; `"  USER@Example.com "` is stored as
`"user@example.com"`, and an email failing the shape check rejects the
write, leaving the store unchanged, with the error naming the email
field. -/
theorem booking_email_contract :
    (∀ (events : List Event) (store : List Booking) (b : Booking) (mEid : Bool)
        (store' : List Booking),
        saveBooking events store b true mEid = (store', none) →
        store' = store ++ [{ b with email := lowerStr (trimStr b.email) }] ∧
          emailMatch (lowerStr (trimStr b.email)) = true) ∧
    lowerStr (trimStr "  USER@Example.com ".data) = "user@example.com".data ∧
    (∀ (events : List Event) (store : List Booking) (b : Booking) (isNew mEid : Bool),
        b.eventId ≠ [] → lowerStr (trimStr b.email) ≠ [] →
        emailMatch (lowerStr (trimStr b.email)) = false →
        saveBooking events store b isNew mEid
          = (store, some "Please provide a valid email address".data)) ∧
    hasSubSeq "email".data "Please provide a valid email address".data = true := by
  refine ⟨?_, by decide, ?_, by decide⟩
  · intro events store b mEid store' h
    simp only [saveBooking] at h
    cases hv : validateBooking { b with email := lowerStr (trimStr b.email) } with
    | some m => rw [hv] at h; simp_all
    | none =>
      rw [hv] at h
      cases hp : bookingPreSave events { b with email := lowerStr (trimStr b.email) }
          true mEid with
      | error m => rw [hp] at h; simp_all
      | ok b2 =>
        rw [hp] at h
        have hb2 := bookingPreSave_ok hp
        subst hb2
        simp only [if_true] at h
        simp at h
        constructor
        · exact h.symm
        · simpa using validateBooking_none hv
  · intro events store b isNew mEid h1 h2 h3
    simp only [saveBooking, validateBooking]
    simp [h1, h2, h3]

theorem booking_email_contract_witness :
    ([{ bkGood with email := lowerStr (trimStr bkGood.email) }] : List Booking)
        = [] ++ [{ bkGood with email := lowerStr (trimStr bkGood.email) }] ∧
      emailMatch (lowerStr (trimStr bkGood.email)) = true ∧
      saveBooking [] [] bkBadEmail true true
        = ([], some "Please provide a valid email address".data) := by
  refine ⟨?_, ?_, ?_⟩
  · exact (booking_email_contract.1 [evLaunch1Saved] [] bkGood true
      [{ bkGood with email := lowerStr (trimStr bkGood.email) }] (by decide)).1
  · exact (booking_email_contract.1 [evLaunch1Saved] [] bkGood true
      [{ bkGood with email := lowerStr (trimStr bkGood.email) }] (by decide)).2
  · exact booking_email_contract.2.2.1 [] [] bkBadEmail true true
      (by decide) (by decide) (by decide)
